import Mathlib

/-!
Verification of the AMOCA parametric climate-insurance settlement core
(Sui Move modules of manolaz/amoca-sui-overflow) against its
natural-language specification.

The Move sources are shallowly embedded: u64/u128 values become `Nat`,
every arithmetic operation that can abort in the Move VM (overflow,
underflow, division by zero, narrowing cast, out-of-bounds vector access)
is made explicit through an `Except`-style monad `M`, and `assert!` with
its abort code becomes `massert`.  A Move entry function either aborts
(the whole transaction is rolled back, so no state change is observable)
or succeeds; correspondingly every embedded operation returns `.error e`
or `.ok` with the complete post-state, so atomicity claims are read off
the result shape.
-/

namespace Amoca

/-- Abort outcomes of the Move VM relevant here: `abort code` for an
explicit `assert!(cond, code)` failure, the arithmetic aborts, and the
spec-modelled `InsufficientLiquidity` failure of the pool payout. -/
inductive MoveErr where
  | abort (code : Nat)
  | overflow
  | underflow
  | divByZero
  | outOfBounds
  | missingKey
  | insufficientLiquidity
  deriving Repr, DecidableEq

/-- Result monad of an embedded Move computation. -/
abbrev M (α : Type) : Type := Except MoveErr α

/-- Largest u64 value. -/
def U64MAX : Nat := 18446744073709551615

/-- Largest u128 value. -/
def U128MAX : Nat := 340282366920938463463374607431768211455

/-- u64 addition; aborts on overflow as in the Move VM. -/
def addU64 (a b : Nat) : M Nat :=
  if a + b ≤ U64MAX then .ok (a + b) else .error .overflow

/-- u64 subtraction; aborts on underflow as in the Move VM. -/
def subU64 (a b : Nat) : M Nat :=
  if b ≤ a then .ok (a - b) else .error .underflow

/-- u64 multiplication; aborts on overflow as in the Move VM. -/
def mulU64 (a b : Nat) : M Nat :=
  if a * b ≤ U64MAX then .ok (a * b) else .error .overflow

/-- u64 division; aborts on a zero divisor as in the Move VM. -/
def divU64 (a b : Nat) : M Nat :=
  if b = 0 then .error .divByZero else .ok (a / b)

/-- u128 addition; aborts on overflow. -/
def addU128 (a b : Nat) : M Nat :=
  if a + b ≤ U128MAX then .ok (a + b) else .error .overflow

/-- Narrowing cast `(x as u64)` from u128; aborts when the value does
not fit, as in the Move VM. -/
def castU64 (a : Nat) : M Nat :=
  if a ≤ U64MAX then .ok a else .error .overflow

/-- Embedding of `assert!(cond, code)`. -/
def massert (cond : Prop) [Decidable cond] (code : Nat) : M Unit :=
  if cond then .ok () else .error (.abort code)

/-- Embedding of `vector::borrow`; aborts when the index is out of
bounds, as in the Move VM. -/
def vecBorrow (l : List Nat) (i : Nat) : M Nat :=
  match l.get? i with
  | some v => .ok v
  | none => .error .outOfBounds

/-! ## Liquidity pool (`amoca::liquidity_pool`, src/unnamed/part_002)

`lp_shares : Table<address, u64>` is embedded as an association list
from addresses (as `Nat`) to share counts, with `table::contains`,
`table::borrow_mut` update and `table::add` made explicit below.
`total_liquidity : Balance<SUI>` is embedded as its u64 value. -/

structure LiquidityPool where
  totalLiquidity : Nat
  lpShares : List (Nat × Nat)
  totalShares : Nat
  deriving Repr, DecidableEq

/-- Embedding of `table::contains` for tables keyed by `Nat`
(addresses, object ids, months). -/
def tableContains {α : Type} (t : List (Nat × α)) (k : Nat) : Bool :=
  t.any (fun e => e.1 = k)

/-- Embedding of `table::borrow` for `Nat`-keyed tables; borrowing a
missing key aborts in the Move VM. -/
def tableBorrow {α : Type} (t : List (Nat × α)) (k : Nat) : M α :=
  match t.find? (fun e => e.1 = k) with
  | some e => .ok e.2
  | none => .error .missingKey

/-- Value stored for key `k`, or `0` when absent (used only to state
theorems about share balances; the code itself branches on
`tableContains` before reading). -/
def tableGetD (t : List (Nat × Nat)) (k : Nat) : Nat :=
  match t.find? (fun e => e.1 = k) with
  | some e => e.2
  | none => 0

/-- Embedding of the `borrow_mut`-update/`add` pair used by
`add_liquidity`: overwrite the entry for `k` when present, append it
otherwise. -/
def tableSet : List (Nat × Nat) → Nat → Nat → List (Nat × Nat)
  | [], k, v => [(k, v)]
  | e :: rest, k, v => if e.1 = k then (k, v) :: rest else e :: tableSet rest k v

/-- Embedding of `create_pool`. -/
def create_pool : LiquidityPool :=
  { totalLiquidity := 0, lpShares := [], totalShares := 0 }

/-- Embedding of `add_liquidity` (src/unnamed/part_002, lines 165-212).
Returns the updated pool together with the shares issued (the share
count recorded on the transferred `LPToken` and in the
`LiquidityAdded` event).  The share calculation, the `balance::join`,
the share-table update and the `total_shares` increment follow the
source line by line; object creation and the event emission carry no
further state. -/
def add_liquidity (pool : LiquidityPool) (amount : Nat) (sender : Nat) :
    M (LiquidityPool × Nat) :=
  (if pool.totalShares = 0 then
    pure amount
  else
    mulU64 amount pool.totalShares >>= fun p =>
    divU64 p pool.totalLiquidity) >>= fun shares =>
  addU64 pool.totalLiquidity amount >>= fun newLiquidity =>
  (if tableContains pool.lpShares sender then
    addU64 (tableGetD pool.lpShares sender) shares >>= fun s =>
    pure (tableSet pool.lpShares sender s)
  else
    pure (tableSet pool.lpShares sender shares)) >>= fun newTable =>
  addU64 pool.totalShares shares >>= fun newTotalShares =>
  pure ({ totalLiquidity := newLiquidity, lpShares := newTable,
          totalShares := newTotalShares }, shares)

/-- Modelled from the spec: `liquidity_pool::process_claim_payout` is
called by both claim processors but is absent from src (part_002 only
lists it in a trailing comment as a function that "would" exist).
Spec 4.3: "payout(recipient, amount) ... decreases total_liquidity by
amount without affecting any share balance ... Fails with
InsufficientLiquidity if amount exceeds total_liquidity". -/
def process_claim_payout (pool : LiquidityPool) (_recipient : Nat)
    (amount : Nat) : M LiquidityPool :=
  if pool.totalLiquidity < amount then .error .insufficientLiquidity
  else .ok { pool with totalLiquidity := pool.totalLiquidity - amount }

/-! ## Policies (`amoca::policy_manager_enhanced`, src/unnamed/part_008)

Only the fields read or written by the embedded operations are carried;
`id`, `location_coordinates` and `peril_details` never influence any
claim considered here.  `collateral_balance : Balance<SUI>` is embedded
as its u64 value. -/

structure Policy where
  owner : Nat
  location : String
  perilType : String
  coverageAmount : Nat
  triggerThreshold : Nat
  triggerOperator : Nat
  collateralBalance : Nat
  marginRequirement : Nat
  fundingRatePaid : Nat
  fundingRateReceived : Nat
  active : Bool
  lastUpdated : Nat
  deriving Repr, DecidableEq

/-- Aggregated oracle record of
`amoca::switchboard_oracle_integration` (src/unnamed/part_008); only
the fields returned by `get_aggregated_data_details` are carried.
`value` is a u128. -/
structure AggData where
  location : String
  dataType : String
  value : Nat
  timestamp : Nat
  sourcesCount : Nat
  deriving Repr, DecidableEq

/-- Claim record of `amoca::claim_processor_updated`
(src/unnamed/part_009); `id` and `policy_id` are object identities and
are not carried. -/
structure ClaimRec where
  owner : Nat
  triggerValue : Nat
  actualValue : Nat
  decimalPlaces : Nat
  payoutAmount : Nat
  processedAt : Nat
  status : Nat
  oracleSources : Nat
  deriving Repr, DecidableEq

/-- The trigger evaluation of the updated claim processor
(src/unnamed/part_009, lines 57-80): operator 0 compares with `<=`,
operator 1 with `>=`, operator 2 checks the absolute difference
against `trigger_threshold / 100`, and any other operator leaves
`trigger_met` at its initial `false`. -/
def trigger_met_eval (triggerOperator triggerThreshold v : Nat) : Bool :=
  if triggerOperator = 0 then
    decide (v ≤ triggerThreshold)
  else if triggerOperator = 1 then
    decide (v ≥ triggerThreshold)
  else if triggerOperator = 2 then
    decide ((if v > triggerThreshold then v - triggerThreshold
      else triggerThreshold - v) ≤ triggerThreshold / 100)
  else
    false

/-- Embedding of
`claim_processor_updated::process_claim_with_aggregated_data`
(src/unnamed/part_009, lines 36-116).  `epoch` stands for
`tx_context::epoch(ctx)`.  On success the created `Claim` record and
the post-payout pool are returned; an abort anywhere rolls the whole
transaction back, which the `M` result shape makes explicit. -/
def process_claim_with_aggregated_data (policy : Policy) (oracle : AggData)
    (pool : LiquidityPool) (epoch : Nat) : M (ClaimRec × LiquidityPool) :=
  massert (policy.active = true) 0 >>= fun _ =>
  massert (policy.location = oracle.location) 1 >>= fun _ =>
  massert (policy.perilType = oracle.dataType) 2 >>= fun _ =>
  castU64 oracle.value >>= fun oracleValueU64 =>
  let triggerMet : Bool :=
    trigger_met_eval policy.triggerOperator policy.triggerThreshold oracleValueU64
  let status := if triggerMet then 1 else 2
  let payoutAmount := if triggerMet then policy.coverageAmount else 0
  let claim : ClaimRec :=
    { owner := policy.owner
      triggerValue := policy.triggerThreshold
      actualValue := oracle.value
      decimalPlaces := 8
      payoutAmount := payoutAmount
      processedAt := epoch
      status := status
      oracleSources := oracle.sourcesCount }
  (if status = 1 then process_claim_payout pool policy.owner payoutAmount
    else pure pool) >>= fun pool' =>
  pure (claim, pool')

/-! ## Basic claim processor (`amoca::claim_processor`,
src/packages/backend/move/amoca-p2p-climate-insurance/sources/claim_processor.move) -/

/-- Policy of the basic `amoca::policy_manager`
(src/packages/backend/move/amoca-p2p-climate-insurance/policy_manager.move). -/
structure PolicyBasic where
  owner : Nat
  location : String
  perilType : String
  coverageAmount : Nat
  triggerThreshold : Nat
  collateralAmount : Nat
  active : Bool
  deriving Repr, DecidableEq

/-- Aggregated record of the basic `amoca::oracle_aggregator`
(sources/oracle_aggregator.move). -/
structure AggDataBasic where
  location : String
  dataType : String
  value : Nat
  timestamp : Nat
  sourcesCount : Nat
  deriving Repr, DecidableEq

/-- Claim record of the basic `amoca::claim_processor`. -/
structure ClaimRecBasic where
  owner : Nat
  triggerValue : Nat
  actualValue : Nat
  payoutAmount : Nat
  processedAt : Nat
  status : Nat
  deriving Repr, DecidableEq

/-- Embedding of `claim_processor::process_claim`
(sources/claim_processor.move, lines 31-87).  Note that unlike the
updated processor this function never reads `policy.active`: the
source goes straight from the location and peril assertions to the
trigger evaluation. -/
def process_claim (policy : PolicyBasic) (oracle : AggDataBasic)
    (pool : LiquidityPool) (epoch : Nat) : M (ClaimRecBasic × LiquidityPool) :=
  massert (policy.location = oracle.location) 0 >>= fun _ =>
  massert (policy.perilType = oracle.dataType) 1 >>= fun _ =>
  let triggerMet : Bool := decide (oracle.value ≤ policy.triggerThreshold)
  let status := if triggerMet then 1 else 2
  let payoutAmount := if triggerMet then policy.coverageAmount else 0
  let claim : ClaimRecBasic :=
    { owner := policy.owner
      triggerValue := policy.triggerThreshold
      actualValue := oracle.value
      payoutAmount := payoutAmount
      processedAt := epoch
      status := status }
  (if status = 1 then process_claim_payout pool policy.owner payoutAmount
    else pure pool) >>= fun pool' =>
  pure (claim, pool')

/-! ## Policy lifecycle operations (`amoca::policy_manager_enhanced`,
src/unnamed/part_008) -/

/-- String-keyed table lookup with a default, the
`if (table::contains ...) { *table::borrow ... } else { default }`
pattern used throughout the risk code. -/
def strTableGetD (t : List (String × Nat)) (k : String) (d : Nat) : Nat :=
  match t.find? (fun e => e.1 = k) with
  | some e => e.2
  | none => d

/-- Nat-keyed variant of `strTableGetD`. -/
def natTableGetD (t : List (Nat × Nat)) (k : Nat) (d : Nat) : Nat :=
  match t.find? (fun e => e.1 = k) with
  | some e => e.2
  | none => d

/-- Risk parameters of `policy_manager_enhanced` (part_008, lines
425-430), with the default entries installed by `init` (lines 482-518). -/
structure RiskParameters where
  locationRisk : List (String × Nat)
  perilRisk : List (String × Nat)
  baseMarginRequirement : Nat
  deriving Repr, DecidableEq

/-- The `RiskParameters` instance created by `init` (part_008, lines
482-518). -/
def defaultRiskParameters : RiskParameters :=
  { locationRisk :=
      [("east-africa", 1200), ("southeast-asia", 1500),
       ("central-america", 1300), ("south-pacific", 1400)]
    perilRisk :=
      [("drought", 1300), ("flood", 1600), ("heat", 1200), ("wind", 1400)]
    baseMarginRequirement := 1000 }

/-- Embedding of `calculate_margin_requirement` (part_008, lines
526-553): missing location/peril entries default to 1000. -/
def calculate_margin_requirement (rp : RiskParameters) (location perilType : String)
    (coverageAmount : Nat) : M Nat := do
  let locationRisk := strTableGetD rp.locationRisk location 1000
  let perilRisk := strTableGetD rp.perilRisk perilType 1000
  let t1 ← addU64 rp.baseMarginRequirement locationRisk
  let totalRiskFactor ← addU64 t1 perilRisk
  let p ← mulU64 coverageAmount totalRiskFactor
  divU64 p 10000

/-- Embedding of `create_policy` (part_008, lines 556-654), restricted
to the `Policy` object it creates; the registry index updates touch
only the separate `PolicyRegistry` object and no field of the policy.
`collateral` is the value of the supplied `Coin<SUI>` and `sender` is
`tx_context::sender(ctx)`. -/
def create_policy (rp : RiskParameters) (location perilType : String)
    (coverageAmount triggerThreshold triggerOperator collateral sender epoch : Nat) :
    M Policy := do
  let marginRequirement ← calculate_margin_requirement rp location perilType coverageAmount
  massert (collateral ≥ marginRequirement) 0
  pure
    { owner := sender
      location := location
      perilType := perilType
      coverageAmount := coverageAmount
      triggerThreshold := triggerThreshold
      triggerOperator := triggerOperator
      collateralBalance := collateral
      marginRequirement := marginRequirement
      fundingRatePaid := 0
      fundingRateReceived := 0
      active := true
      lastUpdated := epoch }

/-- Embedding of `add_collateral` (part_008, lines 657-683). -/
def add_collateral (policy : Policy) (amount sender epoch : Nat) : M Policy := do
  massert (policy.owner = sender) 0
  let newBalance ← addU64 policy.collateralBalance amount
  pure { policy with collateralBalance := newBalance, lastUpdated := epoch }

/-- Embedding of `remove_collateral` (part_008, lines 686-719).  The
excess computation `current_balance - margin_requirement` underflows
(and thus aborts) whenever the balance is already below the margin
requirement; otherwise the assert rejects any `amount` above the
excess, and `coin::take` deducts it. -/
def remove_collateral (policy : Policy) (amount sender epoch : Nat) : M Policy := do
  massert (policy.owner = sender) 0
  let excess ← subU64 policy.collateralBalance policy.marginRequirement
  massert (amount ≤ excess) 0
  let newBalance ← subU64 policy.collateralBalance amount
  pure { policy with collateralBalance := newBalance, lastUpdated := epoch }

/-- Embedding of `process_funding_payment` (part_008, lines 752-773).
The function checks the collateral when the policyholder pays but only
updates the cumulative funding counters; the collateral balance itself
is untouched ("actual payment handled by caller", and no caller in src
deducts it). -/
def process_funding_payment (policy : Policy) (rate : Nat) (direction : Bool) :
    M (Policy × Nat) := do
  massert (policy.active = true) 0
  let p ← mulU64 policy.coverageAmount rate
  let paymentAmount ← divU64 p 10000
  if direction then do
    massert (policy.collateralBalance ≥ paymentAmount) 1
    let fp ← addU64 policy.fundingRatePaid paymentAmount
    pure ({ policy with fundingRatePaid := fp }, paymentAmount)
  else do
    let fr ← addU64 policy.fundingRateReceived paymentAmount
    pure ({ policy with fundingRateReceived := fr }, paymentAmount)

/-! ## Risk model (`amoca::risk_model`, src/unnamed/part_004) -/

structure RiskModel where
  basePremiumRate : Nat
  locationFactors : List (String × Nat)
  perilFactors : List (String × Nat)
  seasonalFactors : List (Nat × Nat)
  coverageFactors : List (Nat × Nat)
  deriving Repr, DecidableEq

/-- The factor tables installed by `create_risk_model`
(part_004, lines 73-137). -/
def defaultRiskModel (basePremiumRate : Nat) : RiskModel :=
  { basePremiumRate := basePremiumRate
    locationFactors :=
      [("east-africa", 120), ("southeast-asia", 150),
       ("central-america", 130), ("south-pacific", 140)]
    perilFactors :=
      [("drought", 130), ("flood", 160), ("heat", 120), ("wind", 140)]
    seasonalFactors :=
      [(1, 100), (2, 100), (3, 110), (4, 120), (5, 130), (6, 140),
       (7, 150), (8, 160), (9, 150), (10, 130), (11, 110), (12, 100)]
    coverageFactors :=
      [(1000, 120), (5000, 110), (10000, 100), (50000, 90), (100000, 85)] }

/-- The nearest-coverage-tier scan of `calculate_premium` (part_004,
lines 210-230): fold over the fixed breakpoints keeping the first tier
with strictly smaller absolute difference, starting from tier 10000
and `min_diff = 1000000000`. -/
def closestTierScan (coverageAmount : Nat) :
    List Nat → Nat × Nat → Nat × Nat
  | [], acc => acc
  | tier :: rest, (minDiff, closest) =>
      let diff := if tier > coverageAmount then tier - coverageAmount
                  else coverageAmount - tier
      if diff < minDiff then closestTierScan coverageAmount rest (diff, tier)
      else closestTierScan coverageAmount rest (minDiff, closest)

/-- Embedding of the single per-factor adjustment expression
`(base_premium * factor) / 100 - base_premium` (part_004, lines
242-245); the u64 subtraction aborts when the scaled value is below
the base premium. -/
def factorAdjustment (basePremium factor : Nat) : M Nat := do
  let p ← mulU64 basePremium factor
  let q ← divU64 p 100
  subU64 q basePremium

/-- Embedding of `calculate_premium` (part_004, lines 171-268),
returning the `PremiumCalculation` fields that carry information:
(base premium, location adj, peril adj, seasonal adj, coverage adj,
final premium, daily funding rate). -/
def calculate_premium (model : RiskModel) (location perilType : String)
    (coverageAmount currentMonth : Nat) :
    M (Nat × Nat × Nat × Nat × Nat × Nat × Nat) := do
  let locationFactor := strTableGetD model.locationFactors location 100
  let perilFactor := strTableGetD model.perilFactors perilType 100
  let month := if 1 ≤ currentMonth ∧ currentMonth ≤ 12 then currentMonth else 1
  let seasonalFactor := natTableGetD model.seasonalFactors month 100
  let closestTier :=
    (closestTierScan coverageAmount [1000, 5000, 10000, 50000, 100000]
      (1000000000, 10000)).2
  let coverageFactor := natTableGetD model.coverageFactors closestTier 100
  let bp ← mulU64 coverageAmount model.basePremiumRate
  let basePremium ← divU64 bp 10000
  let locationAdjustment ← factorAdjustment basePremium locationFactor
  let perilAdjustment ← factorAdjustment basePremium perilFactor
  let seasonalAdjustment ← factorAdjustment basePremium seasonalFactor
  let coverageAdjustment ← factorAdjustment basePremium coverageFactor
  let f1 ← addU64 basePremium locationAdjustment
  let f2 ← addU64 f1 perilAdjustment
  let f3 ← addU64 f2 seasonalAdjustment
  let finalPremium ← addU64 f3 coverageAdjustment
  let num ← mulU64 finalPremium 10000
  let den ← mulU64 coverageAmount 365
  let fundingRate ← divU64 num den
  pure (basePremium, locationAdjustment, perilAdjustment, seasonalAdjustment,
        coverageAdjustment, finalPremium, fundingRate)

/-! ## Oracle aggregation (`amoca::switchboard_oracle`,
sources/claim_processor.move, lines 94-378)

The source sorts the submitted values with a bubble sort (an outer
loop of `n` passes whose inner loop on pass `i` stops at index
`n - i - 1`).  `bubblePass` is one sweep of adjacent compare-and-swap
over the whole list; after pass `i` the last `i` positions already
hold the `i` largest values in order, so the positions the source's
inner loop skips are exactly those a full sweep would leave unchanged,
and `n` full sweeps compute the same list as the source's loops. -/

/-- One adjacent compare-and-swap sweep (the inner `while` of
`aggregate_data`, lines 277-288), in carry form: `a` is the value
currently sitting at position `j`; it is swapped past the next value
exactly when it is strictly greater. -/
def bubblePassGo (a : Nat) : List Nat → List Nat
  | [] => [a]
  | b :: rest => if b < a then b :: bubblePassGo a rest else a :: bubblePassGo b rest

/-- One full sweep over the list. -/
def bubblePass : List Nat → List Nat
  | [] => []
  | a :: rest => bubblePassGo a rest

/-- The outer `while` of the sort: `n` sweeps. -/
def bubbleSortAux : Nat → List Nat → List Nat
  | 0, l => l
  | n + 1, l => bubbleSortAux n (bubblePass l)

/-- The full sort of `aggregate_data` (lines 273-288). -/
def bubbleSort (l : List Nat) : List Nat := bubbleSortAux l.length l

/-- The deviation-accumulation loop of `calculate_confidence`
(lines 331-342): running checked sum of absolute deviations from the
median. -/
def sumDeviations (median : Nat) : List Nat → Nat → M Nat
  | [], acc => .ok acc
  | v :: rest, acc => do
      let deviation := if v > median then v - median else median - v
      let acc' ← addU64 acc deviation
      sumDeviations median rest acc'

/-- Embedding of `calculate_confidence`
(sources/claim_processor.move, lines 324-361). -/
def calculate_confidence (values : List Nat) (median : Nat) : M Nat := do
  let n := values.length
  if n ≤ 1 then
    pure 10000
  else do
    let totalDeviation ← sumDeviations median values 0
    let avgDeviation ← divU64 totalDeviation n
    if avgDeviation = 0 then
      pure 10000
    else if median = 0 then
      pure 5000
    else do
      let p ← mulU64 avgDeviation 10000
      let deviationPercentage ← divU64 p median
      if deviationPercentage ≥ 10000 then pure 1000
      else pure (10000 - deviationPercentage)

/-- Feed registry of `amoca::switchboard_oracle`
(sources/claim_processor.move, lines 115-121); feed ids are `Nat`. -/
structure OracleFeedRegistry where
  feedAuthorities : List (Nat × Nat)
  feedTypes : List (Nat × String)
  feedLocations : List (Nat × String)
  deriving Repr, DecidableEq

/-- The per-feed verification loop of `aggregate_data` (lines
260-270): each feed must be registered and carry the declared data
type and location. -/
def check_feeds (reg : OracleFeedRegistry) (dataType location : String) :
    List Nat → M Unit
  | [] => pure ()
  | feedId :: rest => do
      massert (tableContains reg.feedAuthorities feedId = true) 3
      let ft ← tableBorrow reg.feedTypes feedId
      massert (ft = dataType) 4
      let fl ← tableBorrow reg.feedLocations feedId
      massert (fl = location) 5
      check_feeds reg dataType location rest

/-- Aggregated record of `amoca::switchboard_oracle`
(sources/claim_processor.move, lines 124-133). -/
structure AggDataSB where
  location : String
  dataType : String
  value : Nat
  timestamp : Nat
  confidence : Nat
  numSources : Nat
  sources : List Nat
  deriving Repr, DecidableEq

/-- Embedding of `switchboard_oracle::aggregate_data`
(sources/claim_processor.move, lines 241-321): length checks, feed
verification, bubble sort, median (pair average with truncating
division when the count is even), confidence. -/
def aggregate_data (reg : OracleFeedRegistry) (location dataType : String)
    (feedIds feedValues feedTimestamps : List Nat) (epoch : Nat) : M AggDataSB :=
  let numFeeds := feedIds.length
  massert (numFeeds > 0) 0 >>= fun _ =>
  massert (numFeeds = feedValues.length) 1 >>= fun _ =>
  massert (numFeeds = feedTimestamps.length) 2 >>= fun _ =>
  check_feeds reg dataType location feedIds >>= fun _ =>
  let values := bubbleSort feedValues
  let n := values.length
  (if n % 2 = 0 then
    vecBorrow values (n / 2 - 1) >>= fun a =>
    vecBorrow values (n / 2) >>= fun b =>
    addU64 a b >>= fun s =>
    divU64 s 2
  else
    vecBorrow values (n / 2)) >>= fun medianValue =>
  calculate_confidence values medianValue >>= fun confidence =>
  pure { location := location, dataType := dataType, value := medianValue,
         timestamp := epoch, confidence := confidence,
         numSources := numFeeds, sources := feedIds }

/-! ## Simple aggregator (`amoca::oracle_aggregator`,
sources/oracle_aggregator.move) -/

/-- The summation loop of the simple `aggregate_data`
(sources/oracle_aggregator.move, lines 103-108). -/
def sumValues : List Nat → Nat → M Nat
  | [], acc => .ok acc
  | v :: rest, acc => do
      let acc' ← addU64 acc v
      sumValues rest acc'

/-- Embedding of `oracle_aggregator::aggregate_data`
(sources/oracle_aggregator.move, lines 86-131).  Despite the module
comment mentioning the median, the aggregate it stores is the
truncated average of the submitted values. -/
def aggregate_data_simple (location dataType : String)
    (values : List Nat) (sources : List Nat) (epoch : Nat) : M AggDataBasic := do
  let valuesLen := values.length
  massert (valuesLen > 0) 0
  massert (valuesLen = sources.length) 1
  let sum ← sumValues values 0
  let avgValue ← divU64 sum valuesLen
  pure { location := location, dataType := dataType, value := avgValue,
         timestamp := epoch, sourcesCount := valuesLen }

/-- Median as the specification states it (spec 4.1 and claim C6): with
the values sorted, the middle value for an odd count, and the
truncating average of the two middle values for an even count.  The
canonical sort `List.insertionSort` stands for "the values sorted". -/
def medianSpec (l : List Nat) : Nat :=
  let s := List.insertionSort (· ≤ ·) l
  let n := l.length
  if n % 2 = 0 then (s.getD (n / 2 - 1) 0 + s.getD (n / 2) 0) / 2
  else s.getD (n / 2) 0

/-! ## Correctness of the embedded bubble sort -/

theorem bubblePassGo_perm (l : List Nat) : ∀ a, List.Perm (bubblePassGo a l) (a :: l) := by
  induction l with
  | nil => intro a; exact .refl _
  | cons b rest ih =>
      intro a
      by_cases hba : b < a
      · simp only [bubblePassGo, if_pos hba]
        exact ((ih a).cons b).trans (List.Perm.swap a b rest)
      · simp only [bubblePassGo, if_neg hba]
        exact (ih b).cons a

theorem bubblePass_perm (l : List Nat) : List.Perm (bubblePass l) l := by
  cases l with
  | nil => exact .refl _
  | cons a rest => exact bubblePassGo_perm rest a

theorem bubblePass_length (l : List Nat) : (bubblePass l).length = l.length :=
  (bubblePass_perm l).length_eq

theorem bubblePassGo_of_sorted (l : List Nat) : ∀ a,
    List.Sorted (· ≤ ·) (a :: l) → bubblePassGo a l = a :: l := by
  induction l with
  | nil => intro a _; rfl
  | cons b rest ih =>
      intro a h
      have hab : a ≤ b := (List.sorted_cons.mp h).1 b (by simp)
      simp only [bubblePassGo, if_neg (Nat.not_lt.mpr hab)]
      exact congrArg (List.cons a) (ih b (List.sorted_cons.mp h).2)

theorem bubblePass_of_sorted (l : List Nat) (h : List.Sorted (· ≤ ·) l) :
    bubblePass l = l := by
  cases l with
  | nil => rfl
  | cons a rest => exact bubblePassGo_of_sorted rest a h

theorem bubblePassGo_concat_max (l : List Nat) : ∀ a,
    ∃ s m, bubblePassGo a l = s ++ [m] ∧ m ∈ a :: l ∧ ∀ x ∈ a :: l, x ≤ m := by
  induction l with
  | nil => intro a; exact ⟨[], a, rfl, by simp, by simp⟩
  | cons b rest ih =>
      intro a
      by_cases hba : b < a
      · obtain ⟨s, m, he, hm, hmax⟩ := ih a
        refine ⟨b :: s, m, ?_, ?_, ?_⟩
        · simp only [bubblePassGo, if_pos hba, he, List.cons_append]
        · rcases List.mem_cons.mp hm with hm | hm
          · simp [hm]
          · simp [hm]
        · intro x hx
          rcases List.mem_cons.mp hx with hx | hx
          · exact hx ▸ hmax a (by simp)
          · rcases List.mem_cons.mp hx with hx | hx
            · exact hx ▸ Nat.le_trans hba.le (hmax a (by simp))
            · exact hmax x (by simp [hx])
      · obtain ⟨s, m, he, hm, hmax⟩ := ih b
        refine ⟨a :: s, m, ?_, ?_, ?_⟩
        · simp only [bubblePassGo, if_neg hba, he, List.cons_append]
        · rcases List.mem_cons.mp hm with hm | hm
          · simp [hm]
          · simp [hm]
        · intro x hx
          rcases List.mem_cons.mp hx with hx | hx
          · exact hx ▸ Nat.le_trans (Nat.not_lt.mp hba) (hmax b (by simp))
          · exact hmax x hx

theorem bubblePass_concat_max (l : List Nat) (h : l ≠ []) :
    ∃ s m, bubblePass l = s ++ [m] ∧ m ∈ l ∧ ∀ x ∈ l, x ≤ m := by
  cases l with
  | nil => exact absurd rfl h
  | cons a rest => exact bubblePassGo_concat_max rest a

theorem bubblePassGo_append (l : List Nat) : ∀ (a : Nat) (t : List Nat),
    List.Sorted (· ≤ ·) t → (∀ x ∈ a :: l, ∀ y ∈ t, x ≤ y) →
    bubblePassGo a (l ++ t) = bubblePassGo a l ++ t := by
  induction l with
  | nil =>
      intro a t ht hb
      cases t with
      | nil => rfl
      | cons y t' =>
          have hay : a ≤ y := hb a (by simp) y (by simp)
          simp only [List.nil_append, bubblePassGo, if_neg (Nat.not_lt.mpr hay)]
          exact congrArg (List.cons a) (bubblePassGo_of_sorted t' y ht)
  | cons b rest ih =>
      intro a t ht hb
      by_cases hba : b < a
      · simp only [List.cons_append, bubblePassGo, if_pos hba]
        exact congrArg (List.cons b) (ih a t ht (fun x hx y hy => hb x (by
          rcases List.mem_cons.mp hx with hx | hx
          · simp [hx]
          · simp [hx]) y hy))
      · simp only [List.cons_append, bubblePassGo, if_neg hba]
        exact congrArg (List.cons a) (ih b t ht (fun x hx y hy => hb x (by
          rcases List.mem_cons.mp hx with hx | hx
          · simp [hx]
          · simp [hx]) y hy))

theorem bubblePass_append (l t : List Nat) (ht : List.Sorted (· ≤ ·) t)
    (hb : ∀ x ∈ l, ∀ y ∈ t, x ≤ y) :
    bubblePass (l ++ t) = bubblePass l ++ t := by
  cases l with
  | nil => simpa [bubblePass] using bubblePass_of_sorted t ht
  | cons a rest => exact bubblePassGo_append rest a t ht hb

theorem bubbleSortAux_perm (n : Nat) : ∀ l : List Nat, List.Perm (bubbleSortAux n l) l := by
  induction n with
  | zero => intro l; exact .refl _
  | succ n ih => intro l; exact (ih (bubblePass l)).trans (bubblePass_perm l)

theorem bubbleSortAux_sorted (n : Nat) : ∀ s t : List Nat,
    List.Sorted (· ≤ ·) t → (∀ x ∈ s, ∀ y ∈ t, x ≤ y) → s.length ≤ n →
    List.Sorted (· ≤ ·) (bubbleSortAux n (s ++ t)) := by
  induction n with
  | zero =>
      intro s t ht _ hs
      have hnil : s = [] := List.eq_nil_of_length_eq_zero (Nat.le_zero.mp hs)
      subst hnil
      simpa [bubbleSortAux] using ht
  | succ n ih =>
      intro s t ht hb hs
      show List.Sorted (· ≤ ·) (bubbleSortAux n (bubblePass (s ++ t)))
      cases s with
      | nil =>
          rw [List.nil_append, bubblePass_of_sorted t ht]
          have := ih [] t ht (by simp) (by simp)
          simpa using this
      | cons a s' =>
          rw [bubblePass_append (a :: s') t ht hb]
          obtain ⟨u, m, he, hm, hmax⟩ := bubblePass_concat_max (a :: s') (by simp)
          have hu : u.length ≤ n := by
            have := bubblePass_length (a :: s')
            rw [he] at this
            simp only [List.length_append, List.length_singleton, List.length_cons] at this hs
            omega
          have humem : ∀ x ∈ u, x ∈ a :: s' := by
            intro x hx
            exact (bubblePass_perm (a :: s')).mem_iff.mp (he ▸ List.mem_append_left _ hx)
          rw [he, List.append_assoc, List.singleton_append]
          exact ih u (m :: t)
            (List.sorted_cons.mpr ⟨fun y hy => hb m hm y hy, ht⟩)
            (fun x hx y hy => by
              rcases List.mem_cons.mp hy with hy | hy
              · exact hy ▸ hmax x (humem x hx)
              · exact hb x (humem x hx) y hy)
            hu

theorem bubbleSort_sorted (l : List Nat) : List.Sorted (· ≤ ·) (bubbleSort l) := by
  have := bubbleSortAux_sorted l.length l [] (by simp) (by simp) le_rfl
  simpa [bubbleSort] using this

theorem bubbleSort_perm (l : List Nat) : List.Perm (bubbleSort l) l :=
  bubbleSortAux_perm l.length l

/-- The bubble sort of the source computes the canonical sorted
permutation. -/
theorem bubbleSort_eq_insertionSort (l : List Nat) :
    bubbleSort l = List.insertionSort (· ≤ ·) l :=
  List.eq_of_perm_of_sorted
    ((bubbleSort_perm l).trans (List.perm_insertionSort (· ≤ ·) l).symm)
    (bubbleSort_sorted l)
    (List.sorted_insertionSort (· ≤ ·) l)

/-! ## Inversion lemmas for the embedding monad -/

theorem bind_ok {α β : Type} {x : M α} {f : α → M β} {b : β}
    (h : (x >>= f) = .ok b) : ∃ a, x = .ok a ∧ f a = .ok b := by
  cases x with
  | ok a => exact ⟨a, rfl, h⟩
  | error e => exact Except.noConfusion h

theorem M_bind_ok_eq {α β : Type} (a : α) (f : α → M β) :
    (Except.ok a >>= f) = f a := rfl

theorem M_bind_error_eq {α β : Type} (e : MoveErr) (f : α → M β) :
    ((Except.error e : M α) >>= f) = .error e := rfl

theorem M_pure_eq {α : Type} (a : α) : (pure a : M α) = .ok a := rfl

theorem massert_ok {c : Prop} [Decidable c] {code : Nat} {u : Unit}
    (h : massert c code = .ok u) : c := by
  by_cases hc : c
  · exact hc
  · simp [massert, hc] at h

theorem addU64_ok {a b r : Nat} (h : addU64 a b = .ok r) : r = a + b := by
  by_cases hc : a + b ≤ U64MAX
  · simpa [addU64, hc] using h.symm
  · simp [addU64, hc] at h

theorem subU64_ok {a b r : Nat} (h : subU64 a b = .ok r) : b ≤ a ∧ r = a - b := by
  by_cases hc : b ≤ a
  · exact ⟨hc, by simpa [subU64, hc] using h.symm⟩
  · simp [subU64, hc] at h

theorem mulU64_ok {a b r : Nat} (h : mulU64 a b = .ok r) : r = a * b := by
  by_cases hc : a * b ≤ U64MAX
  · simpa [mulU64, hc] using h.symm
  · simp [mulU64, hc] at h

theorem divU64_ok {a b r : Nat} (h : divU64 a b = .ok r) : b ≠ 0 ∧ r = a / b := by
  by_cases hc : b = 0
  · simp [divU64, hc] at h
  · exact ⟨hc, by simpa [divU64, hc] using h.symm⟩

theorem castU64_ok {a r : Nat} (h : castU64 a = .ok r) : r = a := by
  by_cases hc : a ≤ U64MAX
  · simpa [castU64, hc] using h.symm
  · simp [castU64, hc] at h

theorem vecBorrow_ok {l : List Nat} {i r : Nat} (h : vecBorrow l i = .ok r) :
    l.get? i = some r := by
  unfold vecBorrow at h
  cases hg : l.get? i with
  | some v => rw [hg] at h; exact congrArg some (Except.ok.inj h)
  | none => rw [hg] at h; exact Except.noConfusion h

theorem tableGetD_tableSet_self (t : List (Nat × Nat)) (k v : Nat) :
    tableGetD (tableSet t k v) k = v := by
  induction t with
  | nil => simp [tableSet, tableGetD, List.find?]
  | cons e rest ih =>
      by_cases he : e.1 = k
      · simp [tableSet, he, tableGetD, List.find?]
      · simp only [tableSet, if_neg he, tableGetD, List.find?]
        rw [show (decide (e.1 = k)) = false from by simpa using he]
        exact ih

theorem tableGetD_zero_of_not_contains {t : List (Nat × Nat)} {k : Nat}
    (h : tableContains t k = false) : tableGetD t k = 0 := by
  induction t with
  | nil => rfl
  | cons e rest ih =>
      simp only [tableContains, List.any_cons, Bool.or_eq_false_iff] at h
      simp only [tableGetD, List.find?]
      rw [show (decide (e.1 = k)) = false from h.1]
      exact ih (by simpa [tableContains] using h.2)

/-! ## Claim C8: premium calculation at zero coverage -/

/-- C8 asserts that `calculate_premium` with `coverage_amount = 0`
fails with `InvalidCoverageAmount` before computing the daily funding
rate and never performs a division by zero.  The source has no such
guard and no `InvalidCoverageAmount` error at all: with coverage 0 the
base premium and all four adjustments evaluate to 0 and the funding
rate expression `(final_premium * 10000) / (coverage_amount * 365)`
divides 0 by 0, which aborts the Move VM with an arithmetic error.
This theorem evaluates the embedded code at the failing input. -/
theorem amoca_C8_bug :
    calculate_premium (defaultRiskModel 500) "unknown-region" "rainfall" 0 1 =
      .error .divByZero := by
  rfl

/-! ## Claim C9: sub-100 factors as discounts -/

/-- C9 asserts that a per-factor adjustment
`base_premium * factor / 100 - base_premium` may be negative and that
the computation succeeds for the default sub-100 coverage-tier factors
90 and 85.  All `PremiumCalculation` fields are u64, so in the Move VM
the subtraction underflows and aborts whenever `factor < 100` and
`base_premium > 0`: the default tiers 50000 and 100000 (factors 90 and
85, commented "volume discount" in the source) make `calculate_premium`
abort instead of discounting.  This theorem evaluates the embedded code
at coverage 100000 (nearest tier 100000, factor 85, base premium
100000 * 500 / 10000 = 5000, attempted adjustment 4250 - 5000). -/
theorem amoca_C9_bug :
    calculate_premium (defaultRiskModel 500) "unknown-region" "rainfall" 100000 1 =
      .error .underflow := by
  rfl

/-! ## Claim C3: inactive policies and claim processing -/

/-- C3 as stated ("every claim-processing call on a policy that is not
Active fails with PolicyInactive") is false for the basic
`claim_processor::process_claim`, which never reads `policy.active`:
here an inactive policy is processed successfully, a Claim record is
created (status Rejected for this oracle value) and the call does not
abort. -/
theorem amoca_C3_counterexample :
    (⟨1, "nairobi", "rainfall", 10000, 25, 1200, false⟩ : PolicyBasic).active = false ∧
    process_claim ⟨1, "nairobi", "rainfall", 10000, 25, 1200, false⟩
      ⟨"nairobi", "rainfall", 30, 0, 3⟩
      ⟨5000, [(2, 5000)], 5000⟩ 7 =
      .ok (⟨1, 25, 30, 0, 7, 2⟩, ⟨5000, [(2, 5000)], 5000⟩) :=
  ⟨rfl, rfl⟩

/-- C3 amended: the updated claim processor
(`process_claim_with_aggregated_data`) does validate activity — on any
policy with `active = false` it aborts with code 0 (PolicyInactive)
before reading the oracle, so no payout happens and no Claim record is
created; the basic `claim_processor::process_claim` performs no such
check. -/
theorem amoca_C3 (policy : Policy) (oracle : AggData) (pool : LiquidityPool)
    (epoch : Nat) (h : policy.active = false) :
    process_claim_with_aggregated_data policy oracle pool epoch =
      .error (.abort 0) := by
  have h0 : massert (policy.active = true) 0 = Except.error (MoveErr.abort 0) := by
    simp [massert, h]
  simp only [process_claim_with_aggregated_data, h0]
  rfl

theorem amoca_C3_witness :
    process_claim_with_aggregated_data
      ⟨1, "nairobi", "rainfall", 10000, 25, 0, 1200, 1000, 0, 0, false, 0⟩
      ⟨"nairobi", "rainfall", 20, 0, 3⟩ create_pool 5 = .error (.abort 0) :=
  amoca_C3 _ _ _ _ rfl

/-! ## Claim C1: atomic failure on insufficient pool liquidity -/

/-- C1: for an active policy with a matching oracle aggregate whose
trigger condition holds (so the payout would be approved, with payout
amount `coverage_amount`), if the pool's total liquidity is smaller
than the payout then the whole claim operation fails with
`InsufficientLiquidity`.  The `.error` result is the entire outcome of
the embedded transaction: no `Claim` record and no updated pool are
produced, and the policy (taken by immutable reference in the source)
is untouched — the all-or-nothing semantics of the claim.  The payout
primitive itself is spec-modelled (`process_claim_payout`). -/
theorem amoca_C1 (policy : Policy) (oracle : AggData) (pool : LiquidityPool)
    (epoch : Nat)
    (hactive : policy.active = true)
    (hloc : policy.location = oracle.location)
    (hper : policy.perilType = oracle.dataType)
    (hval : oracle.value ≤ U64MAX)
    (htrig : trigger_met_eval policy.triggerOperator policy.triggerThreshold
      oracle.value = true)
    (hliq : pool.totalLiquidity < policy.coverageAmount) :
    process_claim_with_aggregated_data policy oracle pool epoch =
      .error .insufficientLiquidity := by
  have h0 : massert (policy.active = true) 0 = (.ok () : M Unit) := by
    simp [massert, hactive]
  have h1 : massert (policy.location = oracle.location) 1 = (.ok () : M Unit) := by
    simp [massert, hloc]
  have h2 : massert (policy.perilType = oracle.dataType) 2 = (.ok () : M Unit) := by
    simp [massert, hper]
  have hc : castU64 oracle.value = .ok oracle.value := by
    simp [castU64, hval]
  have hp : process_claim_payout pool policy.owner policy.coverageAmount =
      .error .insufficientLiquidity := by
    simp [process_claim_payout, hliq]
  simp [process_claim_with_aggregated_data, h0, h1, h2, hc, M_bind_ok_eq,
    M_bind_error_eq, htrig, hp]

theorem amoca_C1_witness :
    process_claim_with_aggregated_data
      ⟨1, "kenya", "rainfall", 10000, 25, 0, 1200, 1000, 0, 0, true, 0⟩
      ⟨"kenya", "rainfall", 20, 0, 3⟩
      ⟨5000, [(2, 5000)], 5000⟩ 7 = .error .insufficientLiquidity :=
  amoca_C1 _ _ _ _ rfl rfl rfl (by decide) (by decide) (by decide)

/-! ## Claim C10: deposits on a drained pool with outstanding shares -/

/-- C10: on any pool state with `total_shares > 0` and
`total_liquidity == 0` no deposit can ever succeed — the proportional
share calculation `(amount * total_shares) / total_liquidity` divides
by zero and aborts (or, for astronomically large products, aborts on
the preceding multiplication overflow), for every amount and sender. -/
theorem amoca_C10 (pool : LiquidityPool) (hshares : pool.totalShares ≠ 0)
    (hliq : pool.totalLiquidity = 0) :
    (∀ amount sender r, add_liquidity pool amount sender ≠ .ok r) ∧
    (∀ amount sender, amount * pool.totalShares ≤ U64MAX →
      add_liquidity pool amount sender = .error .divByZero) := by
  have hdiv : ∀ p, divU64 p pool.totalLiquidity = .error .divByZero := by
    intro p
    simp [divU64, hliq]
  constructor
  · intro amount sender r hok
    unfold add_liquidity at hok
    obtain ⟨shares, hsh, _⟩ := bind_ok hok
    rw [if_neg hshares] at hsh
    obtain ⟨p, _, hp⟩ := bind_ok hsh
    rw [hdiv p] at hp
    exact Except.noConfusion hp
  · intro amount sender hmul
    have hm : mulU64 amount pool.totalShares = .ok (amount * pool.totalShares) := by
      simp [mulU64, hmul]
    simp only [add_liquidity, if_neg hshares, hm, hdiv]
    rfl

theorem amoca_C10_witness :
    process_claim_payout ⟨10000, [(1, 10000)], 10000⟩ 9 10000 =
      .ok ⟨0, [(1, 10000)], 10000⟩ ∧
    add_liquidity ⟨0, [(1, 10000)], 10000⟩ 5 2 = .error .divByZero :=
  ⟨rfl, (amoca_C10 ⟨0, [(1, 10000)], 10000⟩ (by decide) rfl).2 5 2 (by decide)⟩

/-! ## Claim C4: deposit share issuance and pool bookkeeping -/

/-- C4: every successful deposit issues `amount` shares on an empty
share ledger and `amount * total_shares / total_liquidity` shares
(truncating) otherwise, increases `total_liquidity` by `amount`,
increases `total_shares` by the issued shares, and adds the issued
shares to the depositor's recorded balance (additively when an entry
already exists; `tableGetD` reads a missing entry as 0). -/
theorem amoca_C4 (pool : LiquidityPool) (amount sender : Nat)
    (pool' : LiquidityPool) (issued : Nat)
    (h : add_liquidity pool amount sender = .ok (pool', issued)) :
    issued = (if pool.totalShares = 0 then amount
      else amount * pool.totalShares / pool.totalLiquidity) ∧
    pool'.totalLiquidity = pool.totalLiquidity + amount ∧
    pool'.totalShares = pool.totalShares + issued ∧
    tableGetD pool'.lpShares sender = tableGetD pool.lpShares sender + issued := by
  unfold add_liquidity at h
  obtain ⟨shares, hsh, h⟩ := bind_ok h
  obtain ⟨newLiq, hnl, h⟩ := bind_ok h
  obtain ⟨newTab, hnt, h⟩ := bind_ok h
  obtain ⟨newTS, hts, h⟩ := bind_ok h
  have hfin : pool' = LiquidityPool.mk newLiq newTab newTS ∧ issued = shares := by
    have := Except.ok.inj h
    exact ⟨congrArg Prod.fst this.symm, congrArg Prod.snd this.symm⟩
  obtain ⟨hp', hiss⟩ := hfin
  subst hp' hiss
  have hshares : issued = (if pool.totalShares = 0 then amount
      else amount * pool.totalShares / pool.totalLiquidity) := by
    by_cases hz : pool.totalShares = 0
    · rw [if_pos hz] at hsh ⊢
      exact (Except.ok.inj hsh).symm
    · rw [if_neg hz] at hsh ⊢
      obtain ⟨p, hp, hd⟩ := bind_ok hsh
      obtain ⟨hne, hq⟩ := divU64_ok hd
      rw [hq, mulU64_ok hp]
  refine ⟨hshares, by simpa using addU64_ok hnl, by simpa using addU64_ok hts, ?_⟩
  by_cases hc : tableContains pool.lpShares sender
  · rw [if_pos hc] at hnt
    obtain ⟨s, hs, hnt⟩ := bind_ok hnt
    have hs' : s = tableGetD pool.lpShares sender + issued := addU64_ok hs
    have := Except.ok.inj hnt
    simp only [← this, tableGetD_tableSet_self, hs']
  · rw [if_neg hc] at hnt
    have := Except.ok.inj hnt
    have hz : tableGetD pool.lpShares sender = 0 :=
      tableGetD_zero_of_not_contains (by simpa using hc)
    simp only [← this, tableGetD_tableSet_self, hz, Nat.zero_add]

theorem amoca_C4_witness :
    add_liquidity create_pool 10000 1 = .ok (⟨10000, [(1, 10000)], 10000⟩, 10000) ∧
    add_liquidity ⟨10000, [(1, 10000)], 10000⟩ 5000 2 =
      .ok (⟨15000, [(1, 10000), (2, 5000)], 15000⟩, 5000) ∧
    tableGetD (⟨15000, [(1, 10000), (2, 5000)], 15000⟩ : LiquidityPool).lpShares 2 =
      tableGetD (⟨10000, [(1, 10000)], 10000⟩ : LiquidityPool).lpShares 2 + 5000 :=
  ⟨rfl, rfl,
    (amoca_C4 ⟨10000, [(1, 10000)], 10000⟩ 5000 2
      ⟨15000, [(1, 10000), (2, 5000)], 15000⟩ 5000 rfl).2.2.2⟩

/-! ## Claim C5: collateral-margin invariant across policy mutations -/

/-- C5: after every mutating policy operation the locked collateral is
at least the margin requirement: policy creation establishes the
invariant (it aborts on insufficient collateral), collateral addition
and funding settlement preserve it (funding settlement only moves the
cumulative counters; the collateral balance is checked but not
reduced), a successful collateral removal re-establishes it
unconditionally, and any removal that would violate it is rejected
(the last conjunct: a successful removal always had
`amount + margin_requirement <= collateral`). -/
theorem amoca_C5 :
    (∀ rp loc pt cov thr op col sender epoch (p : Policy),
      create_policy rp loc pt cov thr op col sender epoch = .ok p →
      p.marginRequirement ≤ p.collateralBalance) ∧
    (∀ (p : Policy) amount sender epoch (p' : Policy),
      p.marginRequirement ≤ p.collateralBalance →
      add_collateral p amount sender epoch = .ok p' →
      p'.marginRequirement ≤ p'.collateralBalance) ∧
    (∀ (p : Policy) amount sender epoch (p' : Policy),
      remove_collateral p amount sender epoch = .ok p' →
      p'.marginRequirement ≤ p'.collateralBalance) ∧
    (∀ (p : Policy) amount sender epoch (p' : Policy),
      remove_collateral p amount sender epoch = .ok p' →
      amount + p.marginRequirement ≤ p.collateralBalance) ∧
    (∀ (p : Policy) rate direction res,
      p.marginRequirement ≤ p.collateralBalance →
      process_funding_payment p rate direction = .ok res →
      res.1.marginRequirement ≤ res.1.collateralBalance) := by
  refine ⟨?_, ?_, ?_, ?_, ?_⟩
  · intro rp loc pt cov thr op col sender epoch p h
    unfold create_policy at h
    obtain ⟨margin, hm, h⟩ := bind_ok h
    obtain ⟨u, hu, h⟩ := bind_ok h
    have hcol : col ≥ margin := massert_ok hu
    have := Except.ok.inj h
    rw [← this]
    exact hcol
  · intro p amount sender epoch p' hpre h
    unfold add_collateral at h
    obtain ⟨u, _, h⟩ := bind_ok h
    obtain ⟨nb, hnb, h⟩ := bind_ok h
    have hnb' := addU64_ok hnb
    have := Except.ok.inj h
    rw [← this]
    simp only []
    omega
  · intro p amount sender epoch p' h
    unfold remove_collateral at h
    obtain ⟨u, _, h⟩ := bind_ok h
    obtain ⟨excess, hex, h⟩ := bind_ok h
    obtain ⟨u2, hu2, h⟩ := bind_ok h
    obtain ⟨nb, hnb, h⟩ := bind_ok h
    obtain ⟨hle, hex'⟩ := subU64_ok hex
    have hamt : amount ≤ excess := massert_ok hu2
    obtain ⟨hle2, hnb'⟩ := subU64_ok hnb
    have := Except.ok.inj h
    rw [← this]
    simp only []
    omega
  · intro p amount sender epoch p' h
    unfold remove_collateral at h
    obtain ⟨u, _, h⟩ := bind_ok h
    obtain ⟨excess, hex, h⟩ := bind_ok h
    obtain ⟨u2, hu2, h⟩ := bind_ok h
    obtain ⟨hle, hex'⟩ := subU64_ok hex
    have hamt : amount ≤ excess := massert_ok hu2
    omega
  · intro p rate direction res hpre h
    unfold process_funding_payment at h
    obtain ⟨u, _, h⟩ := bind_ok h
    obtain ⟨pm, hpm, h⟩ := bind_ok h
    obtain ⟨pa, hpa, h⟩ := bind_ok h
    cases direction with
    | true =>
        simp only [if_pos rfl] at h
        obtain ⟨u2, _, h⟩ := bind_ok h
        obtain ⟨fp, _, h⟩ := bind_ok h
        have := Except.ok.inj h
        rw [← this]
        exact hpre
    | false =>
        simp only [Bool.false_eq_true, if_neg] at h
        obtain ⟨fr, _, h⟩ := bind_ok h
        have := Except.ok.inj h
        rw [← this]
        exact hpre

theorem amoca_C5_witness :
    (⟨1, "east-africa", "drought", 10000, 25, 0, 5000, 3500, 0, 0, true, 0⟩ :
      Policy).marginRequirement ≤
    (⟨1, "east-africa", "drought", 10000, 25, 0, 5000, 3500, 0, 0, true, 0⟩ :
      Policy).collateralBalance :=
  amoca_C5.1 defaultRiskParameters "east-africa" "drought" 10000 25 0 5000 1 0
    ⟨1, "east-africa", "drought", 10000, 25, 0, 5000, 3500, 0, 0, true, 0⟩ rfl

/-! ## Claim C2: trigger evaluation and recorded payout -/

theorem getD_eq_of_get? {l : List Nat} {i v : Nat} (h : l.get? i = some v) :
    l.getD i 0 = v := by
  induction l generalizing i with
  | nil => exact Option.noConfusion h
  | cons a rest ih =>
      cases i with
      | zero => simpa [List.getD] using Option.some.inj h
      | succ j => simpa [List.getD] using ih (by simpa [List.get?] using h)

/-- C2: whenever the updated claim processor produces a Claim record,
the record is Approved (status 1) exactly when the trigger operator's
condition holds on the observed aggregate value — operator 0
(LESS_THAN in the source comments): observed <= threshold; operator 1
(GREATER_THAN): observed >= threshold; operator 2
(EQUAL_WITHIN_TOLERANCE): |observed - threshold| <= threshold / 100
with truncating division — and the recorded payout amount equals the
policy's coverage amount when approved and 0 when rejected. -/
theorem amoca_C2 (policy : Policy) (oracle : AggData) (pool : LiquidityPool)
    (epoch : Nat) (rec : ClaimRec) (pool' : LiquidityPool)
    (h : process_claim_with_aggregated_data policy oracle pool epoch =
      .ok (rec, pool')) :
    (rec.status = 1 ↔ trigger_met_eval policy.triggerOperator
      policy.triggerThreshold oracle.value = true) ∧
    (policy.triggerOperator = 0 →
      (rec.status = 1 ↔ oracle.value ≤ policy.triggerThreshold)) ∧
    (policy.triggerOperator = 1 →
      (rec.status = 1 ↔ policy.triggerThreshold ≤ oracle.value)) ∧
    (policy.triggerOperator = 2 →
      (rec.status = 1 ↔
        ((oracle.value : Int) - (policy.triggerThreshold : Int)).natAbs ≤
          policy.triggerThreshold / 100)) ∧
    rec.payoutAmount = (if rec.status = 1 then policy.coverageAmount else 0) := by
  unfold process_claim_with_aggregated_data at h
  obtain ⟨u0, h0, h⟩ := bind_ok h
  obtain ⟨u1, h1, h⟩ := bind_ok h
  obtain ⟨u2, h2, h⟩ := bind_ok h
  obtain ⟨v, hv, h⟩ := bind_ok h
  have hv' : v = oracle.value := castU64_ok hv
  subst hv'
  obtain ⟨pl, hpl, h⟩ := bind_ok h
  have hrec : rec = ClaimRec.mk policy.owner policy.triggerThreshold oracle.value 8
      (if trigger_met_eval policy.triggerOperator policy.triggerThreshold
        oracle.value = true then policy.coverageAmount else 0)
      epoch
      (if trigger_met_eval policy.triggerOperator policy.triggerThreshold
        oracle.value = true then 1 else 2)
      oracle.sourcesCount :=
    (congrArg Prod.fst (Except.ok.inj h)).symm
  subst hrec
  have habs : policy.triggerOperator = 2 →
      ((((oracle.value : Int) - (policy.triggerThreshold : Int)).natAbs ≤
        policy.triggerThreshold / 100) ↔
      ((if oracle.value > policy.triggerThreshold then
          oracle.value - policy.triggerThreshold
        else policy.triggerThreshold - oracle.value) ≤
          policy.triggerThreshold / 100)) := by
    intro _
    by_cases hvt : oracle.value > policy.triggerThreshold
    · rw [if_pos hvt]
      constructor <;> intro hle <;> omega
    · rw [if_neg hvt]
      constructor <;> intro hle <;> omega
  refine ⟨?_, ?_, ?_, ?_, ?_⟩
  · cases hT : trigger_met_eval policy.triggerOperator policy.triggerThreshold
      oracle.value <;> simp [hT]
  · intro hop
    simp only [hop, trigger_met_eval, if_pos rfl]
    by_cases hvt : oracle.value ≤ policy.triggerThreshold <;> simp [hvt]
  · intro hop
    have : ¬ ((1 : Nat) = 0) := by omega
    simp only [hop, trigger_met_eval, if_neg this, if_pos rfl]
    by_cases hvt : policy.triggerThreshold ≤ oracle.value <;> simp [hvt, ge_iff_le]
  · intro hop
    rw [habs hop]
    have h20 : ¬ ((2 : Nat) = 0) := by omega
    have h21 : ¬ ((2 : Nat) = 1) := by omega
    simp only [hop, trigger_met_eval, if_neg h20, if_neg h21, if_pos rfl]
    by_cases hvt : (if oracle.value > policy.triggerThreshold then
        oracle.value - policy.triggerThreshold
      else policy.triggerThreshold - oracle.value) ≤
        policy.triggerThreshold / 100 <;> simp [hvt]
  · cases hT : trigger_met_eval policy.triggerOperator policy.triggerThreshold
      oracle.value <;> simp [hT]

theorem amoca_C2_witness :
    (⟨1, 25, 20, 8, 10000, 7, 1, 3⟩ : ClaimRec).payoutAmount =
      (if (⟨1, 25, 20, 8, 10000, 7, 1, 3⟩ : ClaimRec).status = 1 then 10000 else 0) :=
  (amoca_C2 ⟨1, "kenya", "rainfall", 10000, 25, 0, 1200, 1000, 0, 0, true, 0⟩
    ⟨"kenya", "rainfall", 20, 0, 3⟩ ⟨50000, [(9, 50000)], 50000⟩ 7
    ⟨1, 25, 20, 8, 10000, 7, 1, 3⟩ ⟨40000, [(9, 50000)], 50000⟩ rfl).2.2.2.2

/-! ## Claim C6: aggregate value versus median -/

/-- C6 as stated quantifies over "oracle aggregation" in general, but
the basic `oracle_aggregator::aggregate_data` stores the truncated
average, not the median: on the batch `[0, 0, 3]` it produces
aggregate value 1 while the median of the batch is 0. -/
theorem amoca_C6_counterexample :
    aggregate_data_simple "kenya" "rainfall" [0, 0, 3] [11, 12, 13] 9 =
      .ok ⟨"kenya", "rainfall", 1, 9, 3⟩ ∧
    medianSpec [0, 0, 3] = 0 ∧ (1 : Nat) ≠ 0 :=
  ⟨rfl, rfl, by decide⟩

/-- C6 amended: the median-based aggregator
(`switchboard_oracle::aggregate_data`, the one the claim-processor
pipeline uses) does satisfy the claim — whenever it produces an
aggregate record, the aggregate value is the median of the submitted
batch: the middle element of the sorted values for an odd count and
the truncating average of the two middle elements for an even count.
The basic `oracle_aggregator::aggregate_data` instead returns the
truncated mean (see the counterexample). -/
theorem amoca_C6 (reg : OracleFeedRegistry) (loc dt : String)
    (ids vals ts : List Nat) (epoch : Nat) (d : AggDataSB)
    (h : aggregate_data reg loc dt ids vals ts epoch = .ok d) :
    d.value = medianSpec vals := by
  unfold aggregate_data at h
  obtain ⟨u0, h0, h⟩ := bind_ok h
  obtain ⟨u1, h1, h⟩ := bind_ok h
  obtain ⟨u2, h2, h⟩ := bind_ok h
  obtain ⟨u3, h3, h⟩ := bind_ok h
  obtain ⟨med, hmed, h⟩ := bind_ok h
  obtain ⟨conf, hconf, h⟩ := bind_ok h
  have hd : d.value = med := by rw [← Except.ok.inj h]
  rw [hd]
  have hlen : (bubbleSort vals).length = vals.length := (bubbleSort_perm vals).length_eq
  unfold medianSpec
  rw [← bubbleSort_eq_insertionSort]
  by_cases hpar : vals.length % 2 = 0
  · rw [if_pos hpar]
    rw [if_pos (show (bubbleSort vals).length % 2 = 0 by rw [hlen]; exact hpar)]
      at hmed
    obtain ⟨a, ha, hmed⟩ := bind_ok hmed
    obtain ⟨b, hb, hmed⟩ := bind_ok hmed
    obtain ⟨s, hs, hmed⟩ := bind_ok hmed
    obtain ⟨h2ne, hq⟩ := divU64_ok hmed
    rw [hq, addU64_ok hs,
      getD_eq_of_get? (hlen ▸ vecBorrow_ok ha),
      getD_eq_of_get? (hlen ▸ vecBorrow_ok hb)]
  · rw [if_neg hpar]
    rw [if_neg (show ¬ ((bubbleSort vals).length % 2 = 0) by rw [hlen]; exact hpar)]
      at hmed
    rw [getD_eq_of_get? (hlen ▸ vecBorrow_ok hmed)]

theorem amoca_C6_witness :
    (⟨"kenya", "rainfall", 7, 42, 8572, 3, [1, 2, 3]⟩ : AggDataSB).value =
      medianSpec [5, 9, 7] :=
  amoca_C6
    ⟨[(1, 9), (2, 9), (3, 9)],
     [(1, "rainfall"), (2, "rainfall"), (3, "rainfall")],
     [(1, "kenya"), (2, "kenya"), (3, "kenya")]⟩
    "kenya" "rainfall" [1, 2, 3] [5, 9, 7] [10, 11, 12] 42 _ rfl

/-! ## Claim C7: confidence score range -/

/-- C7 as stated is false in two respects.  First, the multi-source
floor is not 1000: when the deviation percentage is 9999 the code
returns `10000 - 9999 = 1` (the 1000 floor applies only from 10000
upward).  Second, a batch with median 0 does not always yield 5000:
the perfect-agreement check runs first, so `[0, 0]` (median 0, zero
deviation) yields 10000. -/
theorem amoca_C7_counterexample :
    calculate_confidence [1, 19999] 10000 = .ok 1 ∧ ¬ ((1000 : Nat) ≤ 1) ∧
    calculate_confidence [0, 0] 0 = .ok 10000 ∧ (10000 : Nat) ≠ 5000 :=
  ⟨rfl, by decide, rfl, by decide⟩

/-- C7 amended: a single-source batch always yields confidence 10000;
every confidence the function returns lies between 1 and 10000 (the
advertised floor 1000 is only attained when the deviation percentage
reaches 10000 — below that the result `10000 - deviation_percentage`
can be as small as 1); and a multi-source batch with median 0 yields
the fixed medium confidence 5000 precisely when the average absolute
deviation is nonzero (with zero deviation the perfect-agreement branch
answers 10000 first). -/
theorem amoca_C7 (values : List Nat) (median : Nat) :
    (values.length = 1 → calculate_confidence values median = .ok 10000) ∧
    (∀ c, calculate_confidence values median = .ok c → 1 ≤ c ∧ c ≤ 10000) ∧
    (2 ≤ values.length → median = 0 → ∀ td,
      sumDeviations median values 0 = .ok td → 0 < td / values.length →
      calculate_confidence values median = .ok 5000) := by
  refine ⟨?_, ?_, ?_⟩
  · intro h1
    unfold calculate_confidence
    rw [if_pos (by omega)]
    rfl
  · intro c hc
    unfold calculate_confidence at hc
    by_cases hn : values.length ≤ 1
    · rw [if_pos hn] at hc
      have := Except.ok.inj hc
      omega
    · rw [if_neg hn] at hc
      obtain ⟨td, htd, hc⟩ := bind_ok hc
      obtain ⟨avg, havg, hc⟩ := bind_ok hc
      by_cases h0 : avg = 0
      · rw [if_pos h0] at hc
        have := Except.ok.inj hc
        omega
      · rw [if_neg h0] at hc
        by_cases hm : median = 0
        · rw [if_pos hm] at hc
          have := Except.ok.inj hc
          omega
        · rw [if_neg hm] at hc
          obtain ⟨p, hp, hc⟩ := bind_ok hc
          obtain ⟨dp, hdp, hc⟩ := bind_ok hc
          by_cases hge : dp ≥ 10000
          · rw [if_pos hge] at hc
            have := Except.ok.inj hc
            omega
          · rw [if_neg hge] at hc
            have := Except.ok.inj hc
            omega
  · intro h2 hm td htd hpos
    unfold calculate_confidence
    rw [if_neg (by omega), htd, M_bind_ok_eq]
    have hdiv : divU64 td values.length = .ok (td / values.length) := by
      have : values.length ≠ 0 := by omega
      simp [divU64, this]
    rw [hdiv, M_bind_ok_eq, if_neg (by omega), if_pos hm]
    rfl

theorem amoca_C7_witness : calculate_confidence [5] 3 = .ok 10000 :=
  (amoca_C7 [5] 3).1 rfl

end Amoca
